import Mathlib

/-
Verification of the qa-job-hunt-bot job discovery and matching pipeline.

The development shallowly embeds the pure decision logic of four components:
the fallback match scorer (src/matcher/job_matcher.py, title_based_score and
the AI-path score coercion in match_job_to_profile), the cross-run
deduplication ledger (src/data/jobs_db.py, filter_new_jobs), the within-run
aggregator dedup (src/scrapers/remote_scraper.py, deduplicate), and the
auto-apply form state machine and batch eligibility filter
(src/apply/auto_apply.py, apply_to_linkedin_job and auto_apply_batch).

Python strings are Lean Strings; Python `needle in hay` is an executable
substring check; Python ints are Int; dict ledgers are association lists
where prepending a binding models overwriting a key; timestamps are Int
(in days), so `timedelta(days=w)` is subtraction of w.
-/

namespace QAJobBot

/-- Python str.lower, character by character (ASCII case folding). -/
def lowerStr (s : String) : String := ⟨s.data.map Char.toLower⟩

/-- Whether the first list is a prefix of the second, by char equality. -/
def isPrefixCh : List Char → List Char → Bool
  | [], _ => true
  | _ :: _, [] => false
  | a :: as, b :: bs => a == b && isPrefixCh as bs

/-- Whether needle occurs as a contiguous infix of the haystack. -/
def isInfixCh (needle : List Char) : List Char → Bool
  | [] => isPrefixCh needle []
  | c :: rest => isPrefixCh needle (c :: rest) || isInfixCh needle rest

/-- Python `needle in hay` on strings. -/
def strContains (hay needle : String) : Bool := isInfixCh needle.data hay.data

/-- Python `any(w in title for w in ws)`. -/
def containsAny (title : String) (ws : List String) : Bool :=
  ws.any fun w => strContains title w

/-- The QA_TITLE_KEYWORDS constant of src/matcher/job_matcher.py. -/
def QA_TITLE_KEYWORDS : List String := [
  "qa automation", "test automation", "sdet", "quality assurance",
  "selenium", "playwright", "cypress", "appium", "software tester",
  "automation engineer", "quality engineer", "test engineer", "qa engineer",
  "qa analyst", "automation tester", "software testing"]

/-- A job posting record; a missing field is the empty string, matching
the Python `job.get(field, "")` convention. -/
structure Job where
  id : String
  url : String
  title : String
  company : String
  category : String
deriving DecidableEq, Repr

/-- The slice of the candidate profile read by title_based_score. -/
structure Profile where
  experience_years : Int
  test_frameworks : List String
  programming_languages : List String
deriving DecidableEq, Repr

/-- The seniority branch of title_based_score: the elif chain over the
lowercased title. The argument `title` is the already-lowercased title. -/
def seniority_bonus (exp : Int) (title : String) : Int :=
  if 4 ≤ exp ∧ containsAny title ["senior", "lead", "principal"] then 20
  else if exp ≤ 3 ∧ containsAny title ["junior", "associate"] then 20
  else if containsAny title ["senior", "lead", "junior", "principal"] = false then 15
  else 0

/-- The `score` accumulator of title_based_score before the cap: +50 for a
QA keyword in the title, the seniority elif chain, +10 for the first
profile skill found in the title (the loop breaks after one match). -/
def raw_title_score (job : Job) (profile : Profile) : Int :=
  let title := lowerStr job.title
  let base := if QA_TITLE_KEYWORDS.any (fun kw => strContains title kw) then 50 else 0
  let skills := profile.test_frameworks ++ profile.programming_languages
  let skill := if skills.any (fun sk => strContains title (lowerStr sk)) then 10 else 0
  base + seniority_bonus profile.experience_years title + skill

/-- The scoring fields of the dict returned by title_based_score that the
claims are about. -/
structure ScoreResult where
  match_score : Int
  recommendation : String
  scored_by : String
deriving DecidableEq, Repr

/-- title_based_score of src/matcher/job_matcher.py: match_score is the
raw score capped at 85, recommendation compares the uncapped score to 50. -/
def title_based_score (job : Job) (profile : Profile) : ScoreResult :=
  { match_score := min (raw_title_score job profile) 85,
    recommendation := if 50 ≤ raw_title_score job profile then "APPLY" else "MAYBE",
    scored_by := "title_fallback" }

/-- The AI-path store of match_job_to_profile:
`int(match_data.get("match_score", 0))` applied to the parsed reply; the
parsed value is used as is, with 0 only when the key is absent. -/
def gemini_stored_score (parsed_match_score : Option Int) : Int :=
  parsed_match_score.getD 0

/-- Both components of the raw fallback score are bounded: the whole raw
score lies in [0, 80] and the seniority branch contributes at most 20. -/
theorem raw_title_score_bounds (job : Job) (profile : Profile) :
    0 ≤ raw_title_score job profile ∧ raw_title_score job profile ≤ 80 ∧
    0 ≤ seniority_bonus profile.experience_years (lowerStr job.title) ∧
    seniority_bonus profile.experience_years (lowerStr job.title) ≤ 20 := by
  simp only [raw_title_score, seniority_bonus]
  split_ifs <;> omega

/-- Claim C2: every fallback-scored posting has 0 ≤ match_score ≤ 85 and
its recommendation is APPLY exactly when match_score ≥ 50. -/
theorem fallback_score_range_and_recommendation (job : Job) (profile : Profile) :
    0 ≤ (title_based_score job profile).match_score ∧
    (title_based_score job profile).match_score ≤ 85 ∧
    ((title_based_score job profile).recommendation = "APPLY" ↔
      50 ≤ (title_based_score job profile).match_score) := by
  obtain ⟨h0, h80, -, -⟩ := raw_title_score_bounds job profile
  simp only [title_based_score]
  refine ⟨by omega, by omega, ?_⟩
  split_ifs with h
  · simp only [true_iff]
    omega
  · have : ("MAYBE" : String) ≠ "APPLY" := by decide
    simp only [this, false_iff]
    omega

/-- Claim C10: the raw fallback score is at most 80, so the cap at 85 never
changes the stored match_score, and the recommendation computed from the
raw score agrees with comparing the stored match_score to 50. -/
theorem fallback_cap_never_binds (job : Job) (profile : Profile) :
    raw_title_score job profile ≤ 80 ∧
    seniority_bonus profile.experience_years (lowerStr job.title) ≤ 20 ∧
    (title_based_score job profile).match_score = raw_title_score job profile ∧
    ((title_based_score job profile).recommendation = "APPLY" ↔
      50 ≤ (title_based_score job profile).match_score) := by
  obtain ⟨h0, h80, -, h20⟩ := raw_title_score_bounds job profile
  refine ⟨h80, h20, ?_, ?_⟩
  · simp only [title_based_score]
    omega
  · simp only [title_based_score]
    split_ifs with h
    · simp only [true_iff]
      omega
    · have : ("MAYBE" : String) ≠ "APPLY" := by decide
      simp only [this, false_iff]
      omega

/-- Claim C5, counterexample: the title "QA Engineer" contains no seniority
marker at all, yet the seniority branch adds 15, not the claimed 20. -/
theorem seniority_no_marker_is_not_twenty :
    containsAny (lowerStr "QA Engineer")
      ["senior", "lead", "principal", "junior", "associate"] = false ∧
    seniority_bonus 5 (lowerStr "QA Engineer") = 15 ∧
    ¬ seniority_bonus 5 (lowerStr "QA Engineer") = 20 := by decide

/-- Claim C5 as amended: a title containing none of the seniority marker
words (senior, lead, principal, junior, associate) receives a seniority
bonus of +15, for every experience value. -/
theorem seniority_no_marker_bonus (exp : Int) (title : String)
    (h : containsAny title ["senior", "lead", "principal", "junior", "associate"] = false) :
    seniority_bonus exp title = 15 := by
  simp only [containsAny, List.any_eq_false, List.mem_cons, List.mem_singleton] at h
  have hsen := h "senior" (by simp)
  have hlead := h "lead" (by simp)
  have hprin := h "principal" (by simp)
  have hjun := h "junior" (by simp)
  have hassoc := h "associate" (by simp)
  simp only [seniority_bonus, containsAny, List.any_cons, List.any_nil]
  rw [if_neg, if_neg, if_pos]
  · simp [hsen, hlead, hjun, hprin]
  · rintro ⟨-, hc⟩
    simp [hjun, hassoc] at hc
  · rintro ⟨-, hc⟩
    simp [hsen, hlead, hprin] at hc

/-- Witness for the amended claim C5 at the concrete title "QA Engineer"
and experience 5. -/
theorem seniority_no_marker_bonus_witness :
    containsAny (lowerStr "QA Engineer")
      ["senior", "lead", "principal", "junior", "associate"] = false ∧
    seniority_bonus 5 (lowerStr "QA Engineer") = 15 :=
  ⟨by decide, seniority_no_marker_bonus 5 (lowerStr "QA Engineer") (by decide)⟩

/-- Claim C1: the AI path stores the parsed match_score without clamping;
a model reply of 150 is stored as 150, outside [0, 100]. This contradicts
the module docstring (score 0 to 100) and the spec (clamp), so it is a
code bug rather than a spec error. -/
theorem gemini_score_not_clamped :
    gemini_stored_score (some 150) = 150 ∧ ¬ gemini_stored_score (some 150) ≤ 100 := by
  decide

/-- The persistent dedup ledger of src/data/jobs_db.py: job identifier to
seen_at timestamp. Prepending a binding models the dict overwrite, since
List.lookup returns the most recent binding. Timestamps are in days. -/
abbrev Ledger := List (String × Int)

/-- The identifier of filter_new_jobs:
`job.get("id", "") or job.get("url", "")` (the id, falling back to url). -/
def job_key (j : Job) : String := if j.id = "" then j.url else j.id

/-- filter_new_jobs of src/data/jobs_db.py. A posting with no derivable
identifier is kept unconditionally and never recorded; an identified
posting whose recorded seen_at is strictly more recent than
now - window_days is suppressed; otherwise the posting is kept and its
ledger entry written or overwritten with the current timestamp. Returns
the kept postings in order together with the updated ledger. -/
def filter_new_jobs (now window_days : Int) : Ledger → List Job → List Job × Ledger
  | db, [] => ([], db)
  | db, j :: rest =>
    if job_key j = "" then
      let r := filter_new_jobs now window_days db rest
      (j :: r.1, r.2)
    else
      match List.lookup (job_key j) db with
      | some seen_at =>
        if now - window_days < seen_at then
          filter_new_jobs now window_days db rest
        else
          let r := filter_new_jobs now window_days ((job_key j, now) :: db) rest
          (j :: r.1, r.2)
      | none =>
        let r := filter_new_jobs now window_days ((job_key j, now) :: db) rest
        (j :: r.1, r.2)

/-- A key has a ledger entry strictly inside the suppression window. -/
def recently_seen (db : Ledger) (now window_days : Int) (key : String) : Prop :=
  ∃ t, List.lookup key db = some t ∧ now - window_days < t

theorem recently_seen_cons (db : Ledger) (now w : Int) (key k : String)
    (hw : 1 ≤ w) (h : recently_seen db now w key) :
    recently_seen ((k, now) :: db) now w key := by
  obtain ⟨t, hl, ht⟩ := h
  by_cases hkk : key = k
  · exact ⟨now, by simp [List.lookup, hkk], by omega⟩
  · have hb : (key == k) = false := by simpa using hkk
    exact ⟨t, by simp [List.lookup, hb, hl], ht⟩

theorem filter_new_jobs_preserves_recent (now w : Int) (hw : 1 ≤ w) (key : String) :
    ∀ (jobs : List Job) (db : Ledger), recently_seen db now w key →
      recently_seen (filter_new_jobs now w db jobs).2 now w key := by
  intro jobs
  induction jobs with
  | nil => intro db h; simpa [filter_new_jobs] using h
  | cons j rest ih =>
    intro db h
    simp only [filter_new_jobs]
    split
    · exact ih db h
    · split
      · split
        · exact ih db h
        · exact ih _ (recently_seen_cons db now w key _ hw h)
      · exact ih _ (recently_seen_cons db now w key _ hw h)

theorem filter_new_jobs_records (now w : Int) (hw : 1 ≤ w) :
    ∀ (jobs : List Job) (db : Ledger), (∀ j ∈ jobs, job_key j ≠ "") →
      ∀ j ∈ jobs, recently_seen (filter_new_jobs now w db jobs).2 now w (job_key j) := by
  intro jobs
  induction jobs with
  | nil => intro db _ j hj; simp at hj
  | cons j rest ih =>
    intro db hkeys j' hj'
    have hk : job_key j ≠ "" := hkeys j (by simp)
    have hkeys' : ∀ x ∈ rest, job_key x ≠ "" := fun x hx => hkeys x (by simp [hx])
    have hfresh : recently_seen ((job_key j, now) :: db) now w (job_key j) :=
      ⟨now, by simp [List.lookup], by omega⟩
    rcases List.mem_cons.mp hj' with rfl | hmem
    · simp only [filter_new_jobs, if_neg hk]
      split
      next t heq =>
        split
        next hrec => exact filter_new_jobs_preserves_recent now w hw _ rest db ⟨t, heq, hrec⟩
        next hrec => exact filter_new_jobs_preserves_recent now w hw _ rest _ hfresh
      next heq => exact filter_new_jobs_preserves_recent now w hw _ rest _ hfresh
    · simp only [filter_new_jobs, if_neg hk]
      split
      next t heq =>
        split
        next hrec => exact ih db hkeys' j' hmem
        next hrec => exact ih _ hkeys' j' hmem
      next heq => exact ih _ hkeys' j' hmem

theorem filter_new_jobs_all_recent (now w : Int) :
    ∀ (jobs : List Job) (db : Ledger),
      (∀ j ∈ jobs, job_key j ≠ "" ∧ recently_seen db now w (job_key j)) →
      filter_new_jobs now w db jobs = ([], db) := by
  intro jobs
  induction jobs with
  | nil => intro db _; rfl
  | cons j rest ih =>
    intro db h
    obtain ⟨hk, t, hl, ht⟩ := h j (by simp)
    simp only [filter_new_jobs, if_neg hk, hl, if_pos ht]
    exact ih db fun x hx => h x (by simp [hx])

/-- Claim C3 as amended: when every posting has a derivable identifier and
the window is at least one day, a second filter_new_jobs run at the same
instant with the same input and window returns the empty list. -/
theorem filter_new_jobs_idempotent (db0 : Ledger) (now w : Int) (jobs : List Job)
    (hw : 1 ≤ w) (hkeys : ∀ j ∈ jobs, job_key j ≠ "") :
    (filter_new_jobs now w (filter_new_jobs now w db0 jobs).2 jobs).1 = [] := by
  have hrec := filter_new_jobs_records now w hw jobs db0 hkeys
  rw [filter_new_jobs_all_recent now w jobs _ fun j hj => ⟨hkeys j hj, hrec j hj⟩]

/-- Claim C3, counterexample: a posting with neither id nor url is kept
unconditionally and never recorded, so the second run returns it again and
the claimed idempotence fails for it. -/
theorem filter_new_jobs_not_idempotent_without_id :
    (filter_new_jobs 0 30
      (filter_new_jobs 0 30 [] [Job.mk "" "" "QA Engineer" "Acme" ""]).2
      [Job.mk "" "" "QA Engineer" "Acme" ""]).1 ≠ [] := by decide

/-- Witness for the amended claim C3 on a concrete one-posting input with a
derivable identifier and a 30-day window. -/
theorem filter_new_jobs_idempotent_witness :
    (1 : Int) ≤ 30 ∧
    (∀ j ∈ [Job.mk "a1" "" "QA Engineer" "Acme" ""], job_key j ≠ "") ∧
    (filter_new_jobs 0 30
      (filter_new_jobs 0 30 [] [Job.mk "a1" "" "QA Engineer" "Acme" ""]).2
      [Job.mk "a1" "" "QA Engineer" "Acme" ""]).1 = [] :=
  ⟨by decide, by decide,
   filter_new_jobs_idempotent [] 0 30 [Job.mk "a1" "" "QA Engineer" "Acme" ""]
     (by decide) (by decide)⟩

/-- Claim C4: an identified posting whose ledger entry is dated exactly
now - (window_days + 1) is kept and its timestamp refreshed to now, while
one dated exactly now - (window_days - 1) is suppressed. -/
theorem filter_new_jobs_window_boundary (db1 db2 : Ledger) (now w : Int) (j1 j2 : Job)
    (h1 : job_key j1 ≠ "") (e1 : List.lookup (job_key j1) db1 = some (now - (w + 1)))
    (h2 : job_key j2 ≠ "") (e2 : List.lookup (job_key j2) db2 = some (now - (w - 1))) :
    (filter_new_jobs now w db1 [j1]).1 = [j1] ∧
    List.lookup (job_key j1) (filter_new_jobs now w db1 [j1]).2 = some now ∧
    (filter_new_jobs now w db2 [j2]).1 = [] := by
  have c1 : ¬ now - w < now - (w + 1) := by omega
  have c2 : now - w < now - (w - 1) := by omega
  refine ⟨?_, ?_, ?_⟩
  · simp only [filter_new_jobs, if_neg h1, e1, if_neg c1]
  · simp only [filter_new_jobs, if_neg h1, e1, if_neg c1, List.lookup]
    simp
  · simp only [filter_new_jobs, if_neg h2, e2, if_pos c2]

/-- Witness for claim C4 at window 30: an entry 31 days old resurfaces and
is refreshed, an entry 29 days old is suppressed. -/
theorem filter_new_jobs_window_boundary_witness :
    job_key (Job.mk "k1" "" "" "" "") ≠ "" ∧
    List.lookup (job_key (Job.mk "k1" "" "" "" "")) [("k1", (-31 : Int))] =
      some ((0 : Int) - (30 + 1)) ∧
    job_key (Job.mk "k2" "" "" "" "") ≠ "" ∧
    List.lookup (job_key (Job.mk "k2" "" "" "" "")) [("k2", (-29 : Int))] =
      some ((0 : Int) - (30 - 1)) ∧
    ((filter_new_jobs 0 30 [("k1", (-31 : Int))] [Job.mk "k1" "" "" "" ""]).1 =
        [Job.mk "k1" "" "" "" ""] ∧
      List.lookup (job_key (Job.mk "k1" "" "" "" ""))
        (filter_new_jobs 0 30 [("k1", (-31 : Int))] [Job.mk "k1" "" "" "" ""]).2 =
        some 0 ∧
      (filter_new_jobs 0 30 [("k2", (-29 : Int))] [Job.mk "k2" "" "" "" ""]).1 = []) :=
  ⟨by decide, by decide, by decide, by decide,
   filter_new_jobs_window_boundary [("k1", (-31 : Int))] [("k2", (-29 : Int))] 0 30
     (Job.mk "k1" "" "" "" "") (Job.mk "k2" "" "" "" "")
     (by decide) (by decide) (by decide) (by decide)⟩

/-- What one iteration of the Easy Apply modal loop of
apply_to_linkedin_job observes on the page at a given step: the text of a
submission-confirmation element when one is present, and the label of the
next/review/submit control when one is found. Field-filling interactions
have no effect on the control flow and are not modelled. -/
structure FormObs where
  successText : Option String
  nextBtn : Option String
deriving DecidableEq, Repr

/-- The terminal statuses the modal loop of apply_to_linkedin_job can
produce, named by the status strings the code returns. -/
inductive ApplyStatus where
  | applied
  | skipped_manual_needed
  | skipped_too_many_steps
deriving DecidableEq, Repr

/-- The success check at the top of each loop iteration: a confirmation
element is present and its text contains "submitted" or "sent". -/
def isSuccessIndicated (obs : FormObs) : Bool :=
  match obs.successText with
  | some t => strContains (lowerStr t) "submitted" || strContains (lowerStr t) "sent"
  | none => false

/-- The check on the clicked control label: `"submit" in btn_text.lower()`. -/
def isSubmitLabel (label : String) : Bool := strContains (lowerStr label) "submit"

/-- The `for step in range(max_steps)` loop of apply_to_linkedin_job, with
the remaining iteration budget as fuel. The first component of the result
is the terminal status; the second is the number of form steps examined
when the loop ends. -/
def runSteps (form : Nat → FormObs) : Nat → Nat → ApplyStatus × Nat
  | i, 0 => (ApplyStatus.skipped_too_many_steps, i)
  | i, fuel + 1 =>
    if isSuccessIndicated (form i) then (ApplyStatus.applied, i + 1)
    else
      match (form i).nextBtn with
      | some label =>
        if isSubmitLabel label then (ApplyStatus.applied, i + 1)
        else runSteps form (i + 1) fuel
      | none => (ApplyStatus.skipped_manual_needed, i + 1)

/-- The fixed `max_steps = 8` ceiling of apply_to_linkedin_job. -/
def max_steps : Nat := 8

/-- The modal loop of apply_to_linkedin_job run from the first form step
with the fixed step ceiling. -/
def apply_to_linkedin_job (form : Nat → FormObs) : ApplyStatus × Nat :=
  runSteps form 0 max_steps

theorem runSteps_no_success_no_submit (form : Nat → FormObs)
    (hs : ∀ i, isSuccessIndicated (form i) = false)
    (hn : ∀ i, ∃ b, (form i).nextBtn = some b ∧ isSubmitLabel b = false) :
    ∀ (fuel i : Nat), runSteps form i fuel = (ApplyStatus.skipped_too_many_steps, i + fuel) := by
  intro fuel
  induction fuel with
  | zero => intro i; simp [runSteps]
  | succ f ih =>
    intro i
    obtain ⟨b, hb, hsub⟩ := hn i
    rw [runSteps, if_neg (by simp [hs i]), hb]
    simp only [if_neg (by simp [hsub] : ¬ isSubmitLabel b = true), ih (i + 1)]
    exact congrArg _ (by omega)

/-- Claim C6: on a form whose next control is always found, where no
submission indicator ever appears and no clicked label contains "submit",
the loop terminates with the too-many-steps status after exactly 8 form
steps, the fixed ceiling. -/
theorem auto_apply_step_ceiling (form : Nat → FormObs)
    (hs : ∀ i, isSuccessIndicated (form i) = false)
    (hn : ∀ i, ∃ b, (form i).nextBtn = some b ∧ isSubmitLabel b = false) :
    apply_to_linkedin_job form = (ApplyStatus.skipped_too_many_steps, 8) := by
  have h := runSteps_no_success_no_submit form hs hn max_steps 0
  simpa [apply_to_linkedin_job, max_steps] using h

/-- A synthetic form whose every step shows only a "Next" control and no
confirmation element. -/
def nextOnlyForm : Nat → FormObs := fun _ => FormObs.mk none (some "Next")

/-- A synthetic form whose every step shows no confirmation element and no
next/review/submit control. -/
def blankForm : Nat → FormObs := fun _ => FormObs.mk none none

/-- Witness for claim C6: the constant form showing only a "Next" control. -/
theorem auto_apply_step_ceiling_witness :
    (∀ i, isSuccessIndicated (nextOnlyForm i) = false) ∧
    (∀ i, ∃ b, (nextOnlyForm i).nextBtn = some b ∧ isSubmitLabel b = false) ∧
    apply_to_linkedin_job nextOnlyForm = (ApplyStatus.skipped_too_many_steps, 8) :=
  ⟨fun _ => rfl, fun _ => ⟨"Next", rfl, by decide⟩,
   auto_apply_step_ceiling nextOnlyForm
     (fun _ => rfl) (fun _ => ⟨"Next", rfl, by decide⟩)⟩

/-- Claim C7: on a form that never shows a submission-confirmation element
and never shows a next/review/submit control, the loop returns the
manual-needed status on the very first form step, not after exhausting the
ceiling. -/
theorem auto_apply_manual_needed_first_step (form : Nat → FormObs)
    (hs : ∀ i, (form i).successText = none)
    (hn : ∀ i, (form i).nextBtn = none) :
    apply_to_linkedin_job form = (ApplyStatus.skipped_manual_needed, 1) := by
  have h0 : isSuccessIndicated (form 0) = false := by
    simp [isSuccessIndicated, hs 0]
  show runSteps form 0 (7 + 1) = (ApplyStatus.skipped_manual_needed, 1)
  rw [runSteps, if_neg (by simp [h0]), hn 0]

/-- Witness for claim C7: the constant form showing nothing at all. -/
theorem auto_apply_manual_needed_first_step_witness :
    (∀ i, (blankForm i).successText = none) ∧
    (∀ i, (blankForm i).nextBtn = none) ∧
    apply_to_linkedin_job blankForm = (ApplyStatus.skipped_manual_needed, 1) :=
  ⟨fun _ => rfl, fun _ => rfl,
   auto_apply_manual_needed_first_step blankForm (fun _ => rfl) (fun _ => rfl)⟩

/-- The scoring fields of a job record read by the eligibility filter of
auto_apply_batch. -/
structure MatchedJob where
  id : String
  source : String
  recommendation : String
  match_score : Int
deriving DecidableEq, Repr

/-- The eligibility filter of auto_apply_batch: LinkedIn source, a prior
APPLY recommendation, match_score at least 75, and an id absent from the
application ledger (the keys of applied_jobs.json). -/
def eligible_for_auto_apply (applied_ids : List String) (jobs : List MatchedJob) :
    List MatchedJob :=
  jobs.filter fun j =>
    decide (j.source = "linkedin" ∧ j.recommendation = "APPLY" ∧
      75 ≤ j.match_score ∧ j.id ∉ applied_ids)

/-- The jobs auto_apply_batch attempts an application for: the loop runs
over `eligible[:max_applications]`. -/
def auto_apply_batch_attempts (applied_ids : List String) (jobs : List MatchedJob)
    (max_applications : Nat) : List MatchedJob :=
  (eligible_for_auto_apply applied_ids jobs).take max_applications

/-- Claim C8: a job whose id is already a key of the application ledger is
excluded from the eligible set before any application starts, so the batch
never attempts it, regardless of its match_score or recommendation. -/
theorem applied_jobs_never_reattempted (applied_ids : List String)
    (jobs : List MatchedJob) (max_applications : Nat) (j : MatchedJob)
    (h : j.id ∈ applied_ids) :
    j ∉ auto_apply_batch_attempts applied_ids jobs max_applications := by
  intro hmem
  have h1 := List.mem_of_mem_take hmem
  have h2 := (List.mem_filter.mp h1).2
  simp only [decide_eq_true_eq] at h2
  exact h2.2.2.2 h

/-- Witness for claim C8: a high-scoring APPLY-recommended LinkedIn job
whose id is already recorded is never attempted. -/
theorem applied_jobs_never_reattempted_witness :
    (MatchedJob.mk "lnk1" "linkedin" "APPLY" 90).id ∈ ["lnk1"] ∧
    MatchedJob.mk "lnk1" "linkedin" "APPLY" 90 ∉
      auto_apply_batch_attempts ["lnk1"] [MatchedJob.mk "lnk1" "linkedin" "APPLY" 90] 10 :=
  ⟨by decide,
   applied_jobs_never_reattempted ["lnk1"] [MatchedJob.mk "lnk1" "linkedin" "APPLY" 90] 10
     (MatchedJob.mk "lnk1" "linkedin" "APPLY" 90) (by decide)⟩

/-- The dedup key of deduplicate in src/scrapers/remote_scraper.py:
`job.get("url", "") or job.get("id", "")` (the url, falling back to id). -/
def dedup_key (j : Job) : String := if j.url = "" then j.id else j.url

/-- The loop of deduplicate with its `seen` set of keys: a job is kept
when its key is non-empty and not yet seen; a job with an empty key is
dropped entirely. -/
def dedupAux : List String → List Job → List Job
  | _, [] => []
  | seen, j :: rest =>
    if dedup_key j ≠ "" ∧ dedup_key j ∉ seen then
      j :: dedupAux (dedup_key j :: seen) rest
    else dedupAux seen rest

/-- deduplicate of src/scrapers/remote_scraper.py, starting from an empty
seen set. -/
def deduplicate (jobs : List Job) : List Job := dedupAux [] jobs

theorem dedupAux_filter_of_mem (key : String) :
    ∀ (jobs : List Job) (seen : List String), key ∈ seen →
      (dedupAux seen jobs).filter (fun j => dedup_key j == key) = [] := by
  intro jobs
  induction jobs with
  | nil => intro seen _; rfl
  | cons j rest ih =>
    intro seen hk
    simp only [dedupAux]
    split
    next hcond =>
      have hne : dedup_key j ≠ key := fun he => hcond.2 (he ▸ hk)
      have hb : (dedup_key j == key) = false := by simpa using hne
      simp only [List.filter, hb]
      exact ih (dedup_key j :: seen) (by simp [hk])
    next => exact ih seen hk

theorem dedupAux_filter_first (key : String) (hkey : key ≠ "") :
    ∀ (jobs : List Job) (seen : List String), key ∉ seen →
      (dedupAux seen jobs).filter (fun j => dedup_key j == key) =
        (jobs.find? (fun j => dedup_key j == key)).toList := by
  intro jobs
  induction jobs with
  | nil => intro seen _; rfl
  | cons j rest ih =>
    intro seen hk
    by_cases hj : dedup_key j = key
    · have hb : (dedup_key j == key) = true := by simpa using hj
      have htail := dedupAux_filter_of_mem key rest (dedup_key j :: seen) (by simp [hj])
      simp only [dedupAux, if_pos (And.intro (hj ▸ hkey) (hj ▸ hk)), List.filter, hb,
        List.find?, Option.toList, htail]
    · have hb : (dedup_key j == key) = false := by simpa using hj
      by_cases hcond : dedup_key j ≠ "" ∧ dedup_key j ∉ seen
      · simp only [dedupAux, if_pos hcond, List.filter, hb, List.find?]
        refine ih (dedup_key j :: seen) ?_
        simp only [List.mem_cons, not_or]
        exact ⟨fun h => hj h.symm, hk⟩
      · simp only [dedupAux, if_neg hcond, List.find?, hb]
        exact ih seen hk

theorem dedupAux_sublist : ∀ (jobs : List Job) (seen : List String),
    (dedupAux seen jobs).Sublist jobs := by
  intro jobs
  induction jobs with
  | nil => intro seen; simp [dedupAux]
  | cons j rest ih =>
    intro seen
    simp only [dedupAux]
    split
    · exact (ih _).cons₂ j
    · exact (ih _).cons j

/-- Claim C9 as amended: for every non-empty key, the survivors of
deduplicate carrying that key (url, falling back to id when the url is
absent) are exactly the first occurrence of the key in the input, and the
output is a subsequence of the input; postings with neither url nor id are
dropped entirely. -/
theorem deduplicate_first_occurrence_wins (jobs : List Job) (key : String)
    (hkey : key ≠ "") :
    (deduplicate jobs).filter (fun j => dedup_key j == key) =
      (jobs.find? (fun j => dedup_key j == key)).toList ∧
    (deduplicate jobs).Sublist jobs :=
  ⟨dedupAux_filter_first key hkey jobs [] (by simp), dedupAux_sublist jobs []⟩

/-- Claim C9, counterexample: two postings with identical (absent) url and
identical (absent) id are both dropped, so it is false that exactly one of
them survives. -/
theorem deduplicate_drops_postings_without_key :
    (deduplicate [Job.mk "" "" "QA Engineer" "Acme" "",
      Job.mk "" "" "QA Engineer" "Acme" ""]).length ≠ 1 := by decide

/-- Witness for the amended claim C9: two postings sharing the url "u"
from different adapters; the first occurrence alone survives. -/
theorem deduplicate_first_occurrence_wins_witness :
    ("u" : String) ≠ "" ∧
    ((deduplicate [Job.mk "1" "u" "A" "" "", Job.mk "2" "u" "B" "" ""]).filter
        (fun j => dedup_key j == "u") =
      (([Job.mk "1" "u" "A" "" "", Job.mk "2" "u" "B" "" ""]).find?
        (fun j => dedup_key j == "u")).toList ∧
      (deduplicate [Job.mk "1" "u" "A" "" "", Job.mk "2" "u" "B" "" ""]).Sublist
        [Job.mk "1" "u" "A" "" "", Job.mk "2" "u" "B" "" ""]) :=
  ⟨by decide,
   deduplicate_first_occurrence_wins
     [Job.mk "1" "u" "A" "" "", Job.mk "2" "u" "B" "" ""] "u" (by decide)⟩

end QAJobBot
